import Mathlib

/-!
Verification of the vnscope market-data toolkit.

The repository ships two package variants, each with an `__init__.py`
declaring the exported surface (`__all__`), plus a test suite. The
implementations (`core.py`, `util.py`, `classify.py`) are not part of the
visible sources, so the stateful collaborators (`Datastore`, `Monitor`),
the `align_and_concat` helper and the `ClassifyVolumeProfile` engine are
modelled from the specification's descriptions, as noted on each
definition. The exported-name lists are transcribed verbatim from the two
`__init__.py` files.
-/

namespace VnScope

/-- Exported surface of `src/backend/sdk/vnscope/__init__.py`: the
`__all__` list, transcribed verbatim. -/
def backend_all : List String :=
  [ "align_and_concat", "group_files_by_symbol", "filter", "order",
    "profile", "history", "price", "market", "futures", "cw", "vn30",
    "vn100", "sectors", "industry", "Monitor", "Datastore" ]

/-- Exported surface of `src/pkgs/backend/sdk/vnscope/__init__.py`: the
`__all__` list, transcribed verbatim. -/
def pkgs_all : List String :=
  [ "align_and_concat", "group_files_by_symbol", "heatmap", "filter",
    "order", "profile", "history", "price", "market", "futures", "cw",
    "hose", "midcap", "penny", "vn30", "vn100", "sectors", "industry",
    "configure", "Evolution", "Monitor", "Datastore",
    "ClassifyVolumeProfile" ]

/-- The names the specification says the package exposes: the thirteen
query functions, the two stateful collaborators and the analysis engine. -/
def claimedNames : List String :=
  [ "price", "history", "market", "profile", "order", "futures", "cw",
    "vn30", "vn100", "sectors", "industry", "crypto", "heatmap",
    "Monitor", "Datastore", "ClassifyVolumeProfile" ]

/-- One time-bucketed trading record, per the data model: symbol,
timestamp, OHLC prices and traded volume. Timestamps are naturals
(epoch-like), prices are rationals, volume is a natural. -/
structure Bar where
  symbol : String
  timestamp : Nat
  open_price : ℚ
  high : ℚ
  low : ℚ
  close : ℚ
  volume : Nat
  deriving DecidableEq, Repr

/-- A Series is an ordered sequence of Bars for one symbol. -/
abbrev Series := List Bar

/-- Typed error of the keyed store: `load` on a missing key. -/
inductive StoreError where
  | NotFound
  deriving DecidableEq, Repr

/-- Modelled from the spec: the Datastore's generic keyed persistence
(`save(key, payload)` / `load(key)`), whose implementation lives in the
missing `core.py`. The store is an association list of key/payload pairs;
the most recent save for a key is found first (last write wins). -/
structure Datastore (α : Type) where
  entries : List (String × α)
  deriving DecidableEq, Repr

/-- A freshly initialized Datastore holds no entries. -/
def Datastore.init {α : Type} : Datastore α := ⟨[]⟩

/-- Modelled from the spec: `save(key, payload)` records the payload under
the key; a later save to the same key shadows the earlier one. -/
def Datastore.save {α : Type} (ds : Datastore α) (key : String) (payload : α) :
    Datastore α :=
  ⟨(key, payload) :: ds.entries⟩

/-- Modelled from the spec: `load(key)` returns the most recently saved
payload for the key, and fails with `NotFound` on a missing key. -/
def Datastore.load {α : Type} (ds : Datastore α) (key : String) :
    Except StoreError α :=
  match ds.entries.find? (fun p => p.1 == key) with
  | some p => .ok p.2
  | none => .error .NotFound

/-- Replay a batch of `save` operations, in order, on a fresh Datastore. -/
def Datastore.ofSaves {α : Type} (ops : List (String × α)) : Datastore α :=
  ops.foldl (fun ds p => ds.save p.1 p.2) Datastore.init

/-- Modelled from the spec: the `market` query facade calls into the data
source with the resolved symbol list and shapes the result into a tabular
structure, one row per symbol the source can answer for; symbols the
source does not know produce no row. `feed` abstracts the external
RawFeed: it yields the latest bar for a symbol, or nothing. -/
def market (feed : String → Option Bar) (symbols : List String) :
    List (String × Bar) :=
  symbols.filterMap (fun sym => (feed sym).map (fun b => (sym, b)))

/-- Modelled from the spec: insert one element into a list kept sorted
and duplicate-free under the key `key`, deduplicating by key and keeping
the newest (incoming) value on a key conflict. This is the single-element
step of the Datastore merge routine in the missing `core.py` and of the
timestamp-union construction in the missing `util.py`. -/
def insertKeyed {α : Type} (key : α → Nat) (b : α) : List α → List α
  | [] => [b]
  | x :: xs =>
    if key b < key x then b :: x :: xs
    else if key b = key x then b :: xs
    else x :: insertKeyed key b xs

/-- Fold `insertKeyed` over a batch of new elements, starting from an
existing (sorted) list. -/
def mergeKeyed {α : Type} (key : α → Nat) : List α → List α → List α
  | [], cache => cache
  | b :: rest, cache => mergeKeyed key rest (insertKeyed key b cache)

/-- Modelled from the spec: the Datastore merge routine of the missing
`core.py` — fetched bars are merged into the cached Series, deduplicating
by timestamp with the newest value kept on conflict, and the result is
kept sorted ascending by timestamp. -/
def mergeBars (fetched : List Bar) (cache : Series) : Series :=
  mergeKeyed (fun b => b.timestamp) fetched cache

/-- The timestamps of a Series, in series order. -/
def timestamps (s : Series) : List Nat :=
  s.map (fun b => b.timestamp)

/-- The sorted, duplicate-free union of a list of timestamps. -/
def sortedUnion (ts : List Nat) : List Nat :=
  mergeKeyed id ts []

/-- Modelled from the spec: `align_and_concat` of the missing `util.py`
outer-joins multiple Series on timestamp into one time-indexed table.
Its row index is the sorted union of all input timestamps; each row holds,
per input series, the bar at that timestamp or nothing. -/
def align_and_concat (series_list : List Series) : List (Nat × List (Option Bar)) :=
  (sortedUnion ((series_list.map timestamps).flatten)).map
    (fun t => (t, series_list.map (fun s => s.find? (fun b => b.timestamp == t))))

/-- A concrete one-symbol bar used by witness statements. -/
def sampleBar (t : Nat) (p : ℚ) (v : Nat) : Bar :=
  ⟨"VNM", t, p, p, p, p, v⟩

/-- Typed error of the classifier: input too small. -/
inductive ClassifyError where
  | InsufficientData
  deriving DecidableEq, Repr

/-- The categorical shape labels, listed in the spec's fixed priority
order (front-loaded > back-loaded > U-shaped > flat > irregular). -/
inductive ShapeLabel where
  | frontLoaded
  | backLoaded
  | uShaped
  | flat
  | irregular
  deriving DecidableEq, Repr

/-- Modelled from the spec: classifier configuration — the bucket count
`K` plus the classification thresholds, which the spec leaves as
configuration rather than fixed constants. -/
structure ClassifyConfig where
  K : Nat
  edgeFraction : ℚ
  uFactor : ℚ
  flatTol : ℚ
  deriving DecidableEq, Repr

/-- Add volume `v` into bucket `i` of the accumulator (no effect when `i`
is out of range). -/
def addToBucket : List Nat → Nat → Nat → List Nat
  | [], _, _ => []
  | x :: xs, 0, v => (x + v) :: xs
  | x :: xs, i + 1, v => x :: addToBucket xs i v

/-- Modelled from the spec: partition the series into `K` fixed time
buckets — bar `i` of `n` falls into bucket `i * K / n` — and accumulate
traded volume per bucket, starting from `K` zero buckets so that buckets
receiving no bars keep zero volume. -/
def volumeBuckets (K : Nat) (s : Series) : List Nat :=
  (s.enum).foldl
    (fun acc p => addToBucket acc (p.1 * K / s.length) p.2.volume)
    (List.replicate K 0)

/-- Total traded volume of a series. -/
def totalVolume (s : Series) : Nat :=
  (s.map (fun b => b.volume)).sum

/-- Modelled from the spec: normalize bucket volumes to a distribution —
the volume fraction per bucket. -/
def normalizeBuckets (bins : List Nat) : List ℚ :=
  bins.map (fun v : Nat => (v : ℚ) / ((bins.sum : Nat) : ℚ))

/-- The first third of the buckets. -/
def firstThird (bins : List Nat) : List Nat :=
  bins.take (bins.length / 3)

/-- The last third of the buckets. -/
def lastThird (bins : List Nat) : List Nat :=
  bins.drop (bins.length - bins.length / 3)

/-- The middle third of the buckets. -/
def middleThird (bins : List Nat) : List Nat :=
  (bins.drop (bins.length / 3)).take (bins.length - 2 * (bins.length / 3))

/-- The largest bucket volume. -/
def maxBucket (bins : List Nat) : Nat :=
  bins.foldr max 0

/-- The smallest bucket volume (of a nonempty bucket list). -/
def minBucket (bins : List Nat) : Nat :=
  bins.foldr min (maxBucket bins)

/-- Modelled from the spec: classify the distribution's shape against the
reference patterns, evaluated in the fixed priority order front-loaded >
back-loaded > U-shaped > flat > irregular; the first matching rule
wins. -/
def classifyShape (cfg : ClassifyConfig) (bins : List Nat) : ShapeLabel :=
  let total : ℚ := ((bins.sum : Nat) : ℚ)
  let mid : ℚ := (((middleThird bins).sum : Nat) : ℚ)
  if (((firstThird bins).sum : Nat) : ℚ) > cfg.edgeFraction * total then
    .frontLoaded
  else if (((lastThird bins).sum : Nat) : ℚ) > cfg.edgeFraction * total then
    .backLoaded
  else if (((firstThird bins).sum : Nat) : ℚ) > cfg.uFactor * mid ∧
      (((lastThird bins).sum : Nat) : ℚ) > cfg.uFactor * mid then
    .uShaped
  else if ((maxBucket bins : Nat) : ℚ) - ((minBucket bins : Nat) : ℚ) ≤
      cfg.flatTol * total then
    .flat
  else
    .irregular

/-- The produced volume profile: the ordered bucket volumes and the shape
label. -/
structure VolumeProfile where
  bins : List Nat
  shape : ShapeLabel
  deriving DecidableEq, Repr

/-- Modelled from the spec: `ClassifyVolumeProfile` of the missing
`classify.py` — an empty series fails with `InsufficientData`; otherwise
the series is bucketed into `K` volume buckets and the shape is
classified. -/
def ClassifyVolumeProfile (cfg : ClassifyConfig) (s : Series) :
    Except ClassifyError VolumeProfile :=
  if s.isEmpty then
    .error .InsufficientData
  else
    let bins := volumeBuckets cfg.K s
    .ok ⟨bins, classifyShape cfg bins⟩

/-- A concrete classifier configuration used by witness statements. -/
def sampleConfig : ClassifyConfig :=
  ⟨3, 1 / 2, 2, 1 / 10⟩

/-- Typed error of Monitor lookups: the symbol was never added and no
cached Series exists. -/
inductive MonitorError where
  | UnknownSymbol
  deriving DecidableEq, Repr

/-- Modelled from the spec: a Monitor watchlist entry — the watched
symbol and the last bar the poll loop has seen for it (thresholds and
callbacks drive the poll loop, not `get_stock_info`, and are not needed
here). -/
structure WatchEntry where
  symbol : String
  last_seen_bar : Option Bar
  deriving DecidableEq, Repr

/-- Modelled from the spec: the Monitor's state — the watchlist in
insertion order, plus the cached per-symbol Series it can consult for
point lookups. -/
structure Monitor where
  watchlist : List WatchEntry
  cache : List (String × Series)
  deriving DecidableEq, Repr

/-- The result of a point lookup: the latest known bar plus the derived
fields `change_pct` and `avg_volume`. -/
structure StockInfo where
  latest : Bar
  change_pct : ℚ
  avg_volume : ℚ
  deriving DecidableEq, Repr

/-- Derive the point-lookup fields from a known Series: the last bar, the
percent change of its close against the previous bar's close (zero when
no previous bar or a zero previous close), and the average traded
volume. -/
def seriesInfo (s : Series) : Option StockInfo :=
  match s.getLast? with
  | none => none
  | some latest =>
    let prevClose : ℚ :=
      match s.dropLast.getLast? with
      | some prev => prev.close
      | none => latest.close
    let change : ℚ :=
      if prevClose = 0 then 0 else (latest.close - prevClose) / prevClose * 100
    some ⟨latest, change, ((totalVolume s : Nat) : ℚ) / ((s.length : Nat) : ℚ)⟩

/-- Modelled from the spec: `get_stock_info(symbol)` of the missing
`core.py` — answer from the watchlist entry's last seen bar if one
exists, else from the cached Series; fail with `UnknownSymbol` when the
symbol was never added and no cached Series exists. -/
def Monitor.get_stock_info (m : Monitor) (symbol : String) :
    Except MonitorError StockInfo :=
  match m.watchlist.find? (fun e => e.symbol == symbol) with
  | some e =>
    match e.last_seen_bar with
    | some bar => .ok ⟨bar, 0, ((bar.volume : Nat) : ℚ)⟩
    | none =>
      match m.cache.find? (fun p => p.1 == symbol) with
      | some p =>
        match seriesInfo p.2 with
        | some info => .ok info
        | none => .error .UnknownSymbol
      | none => .error .UnknownSymbol
  | none =>
    match m.cache.find? (fun p => p.1 == symbol) with
    | some p =>
      match seriesInfo p.2 with
      | some info => .ok info
      | none => .error .UnknownSymbol
    | none => .error .UnknownSymbol

end VnScope

open VnScope

/-- Claim C1 (corrected by this counterexample): the spec lists `crypto`
among the package's query functions, but `crypto` is not a member of
`__all__` in either package variant (in the pkgs variant it is imported
but not exported). -/
theorem c1_counterexample :
    "crypto" ∈ claimedNames ∧ "crypto" ∉ pkgs_all ∧ "crypto" ∉ backend_all := by
  decide

/-- Claim C1 (amended): every spec-named query function and collaborator
except `crypto` is a member of `__all__` in the pkgs variant; the backend
variant additionally lacks `heatmap` and `ClassifyVolumeProfile`; and
`crypto` is absent from `__all__` in both variants. -/
theorem c1_exports :
    (∀ n ∈ claimedNames, n ≠ "crypto" → n ∈ pkgs_all) ∧
    (∀ n ∈ claimedNames, n ≠ "crypto" → n ≠ "heatmap" →
      n ≠ "ClassifyVolumeProfile" → n ∈ backend_all) ∧
    "crypto" ∉ pkgs_all ∧ "crypto" ∉ backend_all := by
  decide

/-- Witness for C1's amended theorem at the concrete name `price`. -/
theorem c1_exports_witness : "price" ∈ pkgs_all :=
  c1_exports.1 "price" (by decide) (by decide)

/-- Claim C2: saving a payload under a key and immediately loading that
key (no intervening save to it) returns exactly the saved payload. -/
theorem c2_save_load_roundtrip {α : Type} (ds : Datastore α) (key : String)
    (payload : α) : (ds.save key payload).load key = .ok payload := by
  simp [Datastore.save, Datastore.load, List.find?]

/-- Claim C9: loading a key to which no save has ever been performed
fails with the typed error `NotFound`. -/
theorem c9_load_missing {α : Type} (ops : List (String × α)) (key : String)
    (h : ∀ p ∈ ops, p.1 ≠ key) :
    (Datastore.ofSaves ops).load key = .error .NotFound := by
  suffices hgen : ∀ (ds : Datastore α), (∀ p ∈ ds.entries, p.1 ≠ key) →
      (ops.foldl (fun ds p => ds.save p.1 p.2) ds).load key =
        .error .NotFound by
    exact hgen Datastore.init (by simp [Datastore.init])
  induction ops with
  | nil =>
    intro ds hds
    simp only [List.foldl_nil, Datastore.load]
    rw [List.find?_eq_none.mpr]
    intro p hp
    simpa using hds p hp
  | cons op rest ih =>
    intro ds hds
    simp only [List.foldl_cons]
    refine ih (fun p hp => h p (List.mem_cons_of_mem _ hp)) _ ?_
    intro p hp
    rcases List.mem_cons.mp hp with hhead | htail
    · subst hhead
      exact h op (List.mem_cons_self op rest)
    · exact hds p htail

/-- Witness for C9 at a concrete store: two saves to other keys, then a
load of the missing key `"absent"`. -/
theorem c9_load_missing_witness :
    (Datastore.ofSaves [("a", 1), ("b", 2)]).load "absent" =
      .error .NotFound :=
  c9_load_missing [("a", 1), ("b", 2)] "absent" (by decide)

/-- Claim C10: the `market` query on an empty symbol list succeeds with
zero rows, and on any symbol list returns at most as many rows as there
are input symbols. -/
theorem c10_market_rows (feed : String → Option Bar) (symbols : List String) :
    market feed [] = [] ∧ (market feed symbols).length ≤ symbols.length :=
  ⟨rfl, List.length_filterMap_le _ _⟩

theorem mem_insertKeyed_self {α : Type} (key : α → Nat) (b : α) (l : List α) :
    b ∈ insertKeyed key b l := by
  induction l with
  | nil => simp [insertKeyed]
  | cons x xs ih =>
    simp only [insertKeyed]
    split
    · exact List.mem_cons_self _ _
    · split
      · exact List.mem_cons_self _ _
      · exact List.mem_cons_of_mem x ih

theorem mem_of_mem_insertKeyed {α : Type} {key : α → Nat} {b y : α}
    {l : List α} (h : y ∈ insertKeyed key b l) : y = b ∨ y ∈ l := by
  induction l with
  | nil => simpa [insertKeyed] using h
  | cons x xs ih =>
    simp only [insertKeyed] at h
    split at h
    · rcases List.mem_cons.mp h with h1 | h1
      · exact Or.inl h1
      · exact Or.inr h1
    · split at h
      · rcases List.mem_cons.mp h with h1 | h1
        · exact Or.inl h1
        · exact Or.inr (List.mem_cons_of_mem x h1)
      · rcases List.mem_cons.mp h with h1 | h1
        · exact Or.inr (h1 ▸ List.mem_cons_self x xs)
        · rcases ih h1 with h2 | h2
          · exact Or.inl h2
          · exact Or.inr (List.mem_cons_of_mem x h2)

theorem mem_insertKeyed_of_mem {α : Type} {key : α → Nat} {b y : α}
    {l : List α} (hy : y ∈ l) (hne : key y ≠ key b) :
    y ∈ insertKeyed key b l := by
  induction l with
  | nil => cases hy
  | cons x xs ih =>
    simp only [insertKeyed]
    rcases List.mem_cons.mp hy with h1 | h1
    · subst h1
      split
      · exact List.mem_cons_of_mem _ (List.mem_cons_self y xs)
      · split
        · next heq => exact absurd heq.symm hne
        · exact List.mem_cons_self _ _
    · split
      · exact List.mem_cons_of_mem _ (List.mem_cons_of_mem _ h1)
      · split
        · exact List.mem_cons_of_mem _ h1
        · exact List.mem_cons_of_mem _ (ih h1)

theorem pairwise_insertKeyed {α : Type} {key : α → Nat} {l : List α} (b : α)
    (hl : l.Pairwise (fun a c => key a < key c)) :
    (insertKeyed key b l).Pairwise (fun a c => key a < key c) := by
  induction l with
  | nil => simp [insertKeyed]
  | cons x xs ih =>
    rcases List.pairwise_cons.mp hl with ⟨hx, hxs⟩
    by_cases hlt : key b < key x
    · simp only [insertKeyed]
      rw [if_pos hlt]
      refine List.pairwise_cons.mpr ⟨?_, hl⟩
      intro y hy
      rcases List.mem_cons.mp hy with h1 | h1
      · exact h1 ▸ hlt
      · exact hlt.trans (hx y h1)
    · by_cases heq : key b = key x
      · simp only [insertKeyed]
        rw [if_neg hlt, if_pos heq]
        refine List.pairwise_cons.mpr ⟨?_, hxs⟩
        intro y hy
        exact heq ▸ hx y hy
      · simp only [insertKeyed]
        rw [if_neg hlt, if_neg heq]
        refine List.pairwise_cons.mpr ⟨?_, ih hxs⟩
        intro y hy
        rcases mem_of_mem_insertKeyed hy with h1 | h1
        · subst h1
          omega
        · exact hx y h1

theorem insertKeyed_eq_self {α : Type} {key : α → Nat} {b : α} {l : List α}
    (hl : l.Pairwise (fun a c => key a < key c)) (hb : b ∈ l) :
    insertKeyed key b l = l := by
  induction l with
  | nil => cases hb
  | cons x xs ih =>
    rcases List.pairwise_cons.mp hl with ⟨hx, hxs⟩
    rcases List.mem_cons.mp hb with h1 | h1
    · subst h1
      simp [insertKeyed]
    · have hxb : key x < key b := hx b h1
      simp only [insertKeyed]
      rw [if_neg (by omega), if_neg (by omega), ih hxs h1]

theorem pairwise_mergeKeyed {α : Type} {key : α → Nat} (new : List α)
    {cache : List α} (hc : cache.Pairwise (fun a c => key a < key c)) :
    (mergeKeyed key new cache).Pairwise (fun a c => key a < key c) := by
  induction new generalizing cache with
  | nil => simpa [mergeKeyed] using hc
  | cons x rest ih =>
    simp only [mergeKeyed]
    exact ih (pairwise_insertKeyed x hc)

theorem mem_mergeKeyed_of_mem_cache {α : Type} {key : α → Nat} {b : α}
    {new cache : List α} (hb : b ∈ cache) (hne : ∀ c ∈ new, key b ≠ key c) :
    b ∈ mergeKeyed key new cache := by
  induction new generalizing cache with
  | nil => simpa [mergeKeyed] using hb
  | cons x rest ih =>
    simp only [mergeKeyed]
    exact ih (mem_insertKeyed_of_mem hb (hne x (List.mem_cons_self x rest)))
      (fun c hc => hne c (List.mem_cons_of_mem x hc))

theorem mem_mergeKeyed_of_mem {α : Type} {key : α → Nat} {b : α}
    {new : List α} (cache : List α)
    (hnew : new.Pairwise (fun a c => key a ≠ key c)) (hb : b ∈ new) :
    b ∈ mergeKeyed key new cache := by
  induction new generalizing cache with
  | nil => cases hb
  | cons x rest ih =>
    rcases List.pairwise_cons.mp hnew with ⟨hx, hrest⟩
    simp only [mergeKeyed]
    rcases List.mem_cons.mp hb with h1 | h1
    · subst h1
      exact mem_mergeKeyed_of_mem_cache (mem_insertKeyed_self key b cache) hx
    · exact ih _ hrest h1

theorem mergeKeyed_eq_self {α : Type} {key : α → Nat} {new cache : List α}
    (hc : cache.Pairwise (fun a c => key a < key c))
    (h : ∀ b ∈ new, b ∈ cache) : mergeKeyed key new cache = cache := by
  induction new with
  | nil => simp [mergeKeyed]
  | cons x rest ih =>
    simp only [mergeKeyed]
    rw [insertKeyed_eq_self hc (h x (List.mem_cons_self x rest))]
    exact ih (fun b hb => h b (List.mem_cons_of_mem x hb))

theorem mem_mergeKeyed_id {y : Nat} {new cache : List Nat} :
    y ∈ mergeKeyed id new cache ↔ y ∈ new ∨ y ∈ cache := by
  induction new generalizing cache with
  | nil => simp [mergeKeyed]
  | cons x rest ih =>
    simp only [mergeKeyed]
    rw [ih]
    constructor
    · rintro (h | h)
      · exact Or.inl (List.mem_cons_of_mem x h)
      · rcases mem_of_mem_insertKeyed h with h1 | h1
        · exact Or.inl (h1 ▸ List.mem_cons_self x rest)
        · exact Or.inr h1
    · rintro (h | h)
      · rcases List.mem_cons.mp h with h1 | h1
        · subst h1
          exact Or.inr (mem_insertKeyed_self _ _ _)
        · exact Or.inl h1
      · by_cases hxy : y = x
        · subst hxy
          exact Or.inr (mem_insertKeyed_self _ _ _)
        · exact Or.inr (mem_insertKeyed_of_mem h hxy)

/-- Claim C4: merging non-overlapping fetched bars (pairwise-distinct
timestamps) into one Series yields a Series strictly ascending by
timestamp with no duplicate timestamps, and merging the same bars again
leaves the Series unchanged. -/
theorem c4_merge_sorted_idempotent (fetched : List Bar)
    (hdisj : fetched.Pairwise (fun a b => a.timestamp ≠ b.timestamp)) :
    (mergeBars fetched []).Pairwise (fun a b => a.timestamp < b.timestamp) ∧
      mergeBars fetched (mergeBars fetched []) = mergeBars fetched [] := by
  have hsorted :
      (mergeBars fetched []).Pairwise (fun a b => a.timestamp < b.timestamp) :=
    pairwise_mergeKeyed fetched List.Pairwise.nil
  refine ⟨hsorted, ?_⟩
  exact mergeKeyed_eq_self hsorted
    (fun b hb => mem_mergeKeyed_of_mem _ hdisj hb)

/-- Witness for C4 at a concrete two-bar fetch with distinct timestamps
(arriving out of order). -/
theorem c4_merge_witness :
    (mergeBars [sampleBar 2 10 100, sampleBar 1 9 50] []).Pairwise
      (fun a b => a.timestamp < b.timestamp) ∧
    mergeBars [sampleBar 2 10 100, sampleBar 1 9 50]
        (mergeBars [sampleBar 2 10 100, sampleBar 1 9 50] []) =
      mergeBars [sampleBar 2 10 100, sampleBar 1 9 50] [] :=
  c4_merge_sorted_idempotent [sampleBar 2 10 100, sampleBar 1 9 50]
    (by decide)

/-- Claim C5: `align_and_concat` produces a table whose row index is the
sorted union of all input timestamps with no duplicates (strictly
ascending), and whose row count is exactly the cardinality of that
union. -/
theorem c5_align_and_concat (sl : List Series) :
    ((align_and_concat sl).map Prod.fst).Pairwise (· < ·) ∧
    (∀ t, t ∈ (align_and_concat sl).map Prod.fst ↔
      ∃ s ∈ sl, ∃ b ∈ s, b.timestamp = t) ∧
    (align_and_concat sl).length = ((sl.map timestamps).flatten).toFinset.card := by
  have hidx : (align_and_concat sl).map Prod.fst =
      sortedUnion ((sl.map timestamps).flatten) := by
    simp [align_and_concat, List.map_map, Function.comp_def]
  have hpair : (sortedUnion ((sl.map timestamps).flatten)).Pairwise (· < ·) :=
    @pairwise_mergeKeyed Nat id ((sl.map timestamps).flatten) [] List.Pairwise.nil
  have hmem : ∀ t, t ∈ sortedUnion ((sl.map timestamps).flatten) ↔
      ∃ s ∈ sl, ∃ b ∈ s, b.timestamp = t := by
    intro t
    rw [sortedUnion, mem_mergeKeyed_id]
    constructor
    · rintro (h | h)
      · rcases List.mem_flatten.mp h with ⟨l, hl, htl⟩
        rcases List.mem_map.mp hl with ⟨s, hs, rfl⟩
        simp only [timestamps] at htl
        rcases List.mem_map.mp htl with ⟨b, hb, hbt⟩
        exact ⟨s, hs, b, hb, hbt⟩
      · exact absurd h (List.not_mem_nil t)
    · rintro ⟨s, hs, b, hb, hbt⟩
      refine Or.inl (List.mem_flatten.mpr ⟨timestamps s, List.mem_map_of_mem _ hs, ?_⟩)
      simp only [timestamps]
      exact List.mem_map.mpr ⟨b, hb, hbt⟩
  refine ⟨hidx ▸ hpair, fun t => hidx ▸ hmem t, ?_⟩
  have hnodup : (sortedUnion ((sl.map timestamps).flatten)).Nodup :=
    hpair.imp Nat.ne_of_lt
  have hcard : (sortedUnion ((sl.map timestamps).flatten)).toFinset.card =
      (sortedUnion ((sl.map timestamps).flatten)).length :=
    List.toFinset_card_of_nodup hnodup
  have hset : (sortedUnion ((sl.map timestamps).flatten)).toFinset =
      ((sl.map timestamps).flatten).toFinset := by
    apply Finset.ext
    intro t
    rw [List.mem_toFinset, List.mem_toFinset, sortedUnion, mem_mergeKeyed_id]
    simp
  calc (align_and_concat sl).length
      = ((align_and_concat sl).map Prod.fst).length :=
        (List.length_map _ _).symm
    _ = (sortedUnion ((sl.map timestamps).flatten)).length := by rw [hidx]
    _ = ((sl.map timestamps).flatten).toFinset.card := by rw [← hcard, hset]

/-- Witness for C5 at two concrete overlapping one-bar series. -/
theorem c5_align_witness :
    (align_and_concat [[sampleBar 1 9 50], [sampleBar 1 8 70, sampleBar 2 10 100]]).length =
      (([[sampleBar 1 9 50], [sampleBar 1 8 70, sampleBar 2 10 100]].map timestamps).flatten).toFinset.card :=
  (c5_align_and_concat [[sampleBar 1 9 50], [sampleBar 1 8 70, sampleBar 2 10 100]]).2.2

theorem addToBucket_length (l : List Nat) (i v : Nat) :
    (addToBucket l i v).length = l.length := by
  induction l generalizing i with
  | nil => rfl
  | cons x xs ih =>
    cases i with
    | zero => rfl
    | succ i => simp [addToBucket, ih]

theorem addToBucket_sum (l : List Nat) (i v : Nat) (h : i < l.length) :
    (addToBucket l i v).sum = l.sum + v := by
  induction l generalizing i with
  | nil => simp at h
  | cons x xs ih =>
    cases i with
    | zero =>
      simp only [addToBucket, List.sum_cons]
      omega
    | succ i =>
      simp only [addToBucket, List.sum_cons]
      rw [ih i (by simpa using h)]
      omega

theorem addToBucket_getD_ne (l : List Nat) {i j : Nat} (v : Nat) (h : i ≠ j) :
    (addToBucket l i v).getD j 0 = l.getD j 0 := by
  induction l generalizing i j with
  | nil => rfl
  | cons x xs ih =>
    cases i with
    | zero =>
      cases j with
      | zero => exact absurd rfl h
      | succ j => rfl
    | succ i =>
      cases j with
      | zero => rfl
      | succ j =>
        simpa [addToBucket] using @ih i j (show i ≠ j by omega)

theorem foldl_addToBucket_length (f : Nat × Bar → Nat) (ps : List (Nat × Bar))
    (acc : List Nat) :
    (ps.foldl (fun a p => addToBucket a (f p) p.2.volume) acc).length =
      acc.length := by
  induction ps generalizing acc with
  | nil => rfl
  | cons p rest ih =>
    rw [List.foldl_cons, ih, addToBucket_length]

theorem foldl_addToBucket_sum (f : Nat × Bar → Nat) (ps : List (Nat × Bar))
    (acc : List Nat) (h : ∀ p ∈ ps, f p < acc.length) :
    (ps.foldl (fun a p => addToBucket a (f p) p.2.volume) acc).sum =
      acc.sum + (ps.map (fun p => p.2.volume)).sum := by
  induction ps generalizing acc with
  | nil => simp
  | cons p rest ih =>
    rw [List.foldl_cons,
      ih _ (fun q hq => by
        rw [addToBucket_length]
        exact h q (List.mem_cons_of_mem p hq)),
      addToBucket_sum _ _ _ (h p (List.mem_cons_self p rest))]
    simp only [List.map_cons, List.sum_cons]
    omega

theorem foldl_addToBucket_getD (f : Nat × Bar → Nat) (ps : List (Nat × Bar))
    (acc : List Nat) (j : Nat) (h : ∀ p ∈ ps, f p ≠ j) :
    (ps.foldl (fun a p => addToBucket a (f p) p.2.volume) acc).getD j 0 =
      acc.getD j 0 := by
  induction ps generalizing acc with
  | nil => rfl
  | cons p rest ih =>
    rw [List.foldl_cons, ih _ (fun q hq => h q (List.mem_cons_of_mem p hq)),
      addToBucket_getD_ne _ _ (h p (List.mem_cons_self p rest))]

theorem getD_replicate_zero (K j : Nat) :
    (List.replicate K 0).getD j 0 = 0 := by
  induction K generalizing j with
  | zero => rfl
  | succ K ih =>
    cases j with
    | zero => rfl
    | succ j =>
      rw [List.replicate_succ]
      exact ih j

theorem fst_lt_of_mem_enumFrom {α : Type} {l : List α} {n : Nat}
    {p : Nat × α} (h : p ∈ l.enumFrom n) : p.1 < n + l.length := by
  induction l generalizing n with
  | nil => cases h
  | cons x xs ih =>
    simp only [List.enumFrom] at h
    rcases List.mem_cons.mp h with h1 | h1
    · subst h1
      simp only [List.length_cons]
      omega
    · have h2 := ih h1
      simp only [List.length_cons]
      omega

theorem enumFrom_map_snd_comp {α β : Type} (f : α → β) (n : Nat)
    (l : List α) : (l.enumFrom n).map (fun p => f p.2) = l.map f := by
  induction l generalizing n with
  | nil => rfl
  | cons x xs ih => simp [List.enumFrom, ih]

theorem sum_map_div_nat (l : List Nat) (c : ℚ) :
    (l.map (fun v : Nat => (v : ℚ) / c)).sum = ((l.sum : Nat) : ℚ) / c := by
  induction l with
  | nil => simp
  | cons x xs ih =>
    simp only [List.map_cons, List.sum_cons, ih, Nat.cast_add, add_div]

theorem volumeBuckets_sum (K : Nat) (s : Series) (hK : 0 < K)
    (hs : s ≠ []) : (volumeBuckets K s).sum = totalVolume s := by
  have hlen : 0 < s.length := List.length_pos.mpr hs
  have hb : ∀ p ∈ s.enum, p.1 * K / s.length < (List.replicate K 0).length := by
    intro p hp
    rw [List.length_replicate]
    have h1 : p.1 < s.length := by
      have := @fst_lt_of_mem_enumFrom Bar s 0 p hp
      simpa using this
    rw [Nat.div_lt_iff_lt_mul hlen]
    calc p.1 * K < s.length * K := by
          exact mul_lt_mul_of_pos_right h1 hK
      _ = K * s.length := Nat.mul_comm _ _
  have hsum := foldl_addToBucket_sum (fun p => p.1 * K / s.length) s.enum
    (List.replicate K 0) hb
  have hmap : s.enum.map (fun p => p.2.volume) = s.map (fun b => b.volume) :=
    enumFrom_map_snd_comp (fun b => b.volume) 0 s
  simpa [volumeBuckets, totalVolume, hmap] using hsum

/-- Claim C6: on a nonempty series, the classifier's bucket volumes sum
exactly to the series' total traded volume, and (when the total volume is
nonzero) the normalized distribution sums exactly to 1. -/
theorem c6_conservation (cfg : ClassifyConfig) (s : Series) (hs : s ≠ [])
    (hK : 0 < cfg.K) :
    ∃ vp, ClassifyVolumeProfile cfg s = .ok vp ∧
      vp.bins.sum = totalVolume s ∧
      (0 < totalVolume s → (normalizeBuckets vp.bins).sum = 1) := by
  refine ⟨⟨volumeBuckets cfg.K s, classifyShape cfg (volumeBuckets cfg.K s)⟩,
    ?_, ?_, ?_⟩
  · cases s with
    | nil => exact absurd rfl hs
    | cons x xs => rfl
  · exact volumeBuckets_sum cfg.K s hK hs
  · intro hpos
    have hsum : (volumeBuckets cfg.K s).sum = totalVolume s :=
      volumeBuckets_sum cfg.K s hK hs
    have hne : (((volumeBuckets cfg.K s).sum : Nat) : ℚ) ≠ 0 := by
      rw [hsum]
      exact_mod_cast Nat.pos_iff_ne_zero.mp hpos
    rw [normalizeBuckets, sum_map_div_nat]
    exact div_self hne

/-- Witness for C6 at a concrete three-bar series with `K = 3`. -/
theorem c6_conservation_witness :
    ∃ vp, ClassifyVolumeProfile sampleConfig
        [sampleBar 1 10 100, sampleBar 2 10 100, sampleBar 3 10 100] =
          .ok vp ∧
      vp.bins.sum =
        totalVolume [sampleBar 1 10 100, sampleBar 2 10 100, sampleBar 3 10 100] ∧
      (0 < totalVolume [sampleBar 1 10 100, sampleBar 2 10 100, sampleBar 3 10 100] →
        (normalizeBuckets vp.bins).sum = 1) :=
  c6_conservation sampleConfig
    [sampleBar 1 10 100, sampleBar 2 10 100, sampleBar 3 10 100]
    (by decide) (by decide)

/-- Claim C7: the classifier is deterministic — any two runs on the same
series with the same configuration produce the same result (the same
volume profile, hence the same shape label). -/
theorem c7_deterministic (cfg : ClassifyConfig) (s : Series)
    (r1 r2 : Except ClassifyError VolumeProfile)
    (h1 : r1 = ClassifyVolumeProfile cfg s)
    (h2 : r2 = ClassifyVolumeProfile cfg s) : r1 = r2 :=
  h1.trans h2.symm

/-- Witness for C7 at a concrete one-bar series. -/
theorem c7_deterministic_witness :
    ClassifyVolumeProfile sampleConfig [sampleBar 1 10 100] =
      ClassifyVolumeProfile sampleConfig [sampleBar 1 10 100] :=
  c7_deterministic sampleConfig [sampleBar 1 10 100] _ _ rfl rfl

/-- Claim C8: the empty series fails with `InsufficientData`, and a
nonempty series with fewer bars than the bucket count `K` still yields
exactly `K` buckets, where every bucket that received no bars has zero
volume. -/
theorem c8_edge_cases (cfg : ClassifyConfig) (s : Series) (hs : s ≠ [])
    (hshort : s.length < cfg.K) :
    ClassifyVolumeProfile cfg [] = .error .InsufficientData ∧
    ∃ vp, ClassifyVolumeProfile cfg s = .ok vp ∧
      vp.bins.length = cfg.K ∧
      (∀ j, (∀ p ∈ s.enum, p.1 * cfg.K / s.length ≠ j) →
        vp.bins.getD j 0 = 0) := by
  refine ⟨rfl,
    ⟨⟨volumeBuckets cfg.K s, classifyShape cfg (volumeBuckets cfg.K s)⟩,
      ?_, ?_, ?_⟩⟩
  · cases s with
    | nil => exact absurd rfl hs
    | cons x xs => rfl
  · have := foldl_addToBucket_length (fun p => p.1 * cfg.K / s.length)
      s.enum (List.replicate cfg.K 0)
    simpa [volumeBuckets] using this
  · intro j hj
    have := foldl_addToBucket_getD (fun p => p.1 * cfg.K / s.length)
      s.enum (List.replicate cfg.K 0) j hj
    simpa [volumeBuckets, getD_replicate_zero] using this

/-- Witness for C8 at a one-bar series with `K = 3`. -/
theorem c8_edge_cases_witness :
    ClassifyVolumeProfile sampleConfig [] = .error .InsufficientData ∧
    ∃ vp, ClassifyVolumeProfile sampleConfig [sampleBar 1 10 100] = .ok vp ∧
      vp.bins.length = sampleConfig.K ∧
      (∀ j, (∀ p ∈ ([sampleBar 1 10 100] : Series).enum,
          p.1 * sampleConfig.K / ([sampleBar 1 10 100] : Series).length ≠ j) →
        vp.bins.getD j 0 = 0) :=
  c8_edge_cases sampleConfig [sampleBar 1 10 100] (by decide) (by decide)

/-- Claim C3: `get_stock_info` on a symbol that was never added to the
watchlist and has no cached Series fails with the typed error
`UnknownSymbol`. -/
theorem c3_unknown_symbol (m : Monitor) (symbol : String)
    (hw : ∀ e ∈ m.watchlist, e.symbol ≠ symbol)
    (hc : ∀ p ∈ m.cache, p.1 ≠ symbol) :
    m.get_stock_info symbol = .error .UnknownSymbol := by
  have h1 : m.watchlist.find? (fun e => e.symbol == symbol) = none :=
    List.find?_eq_none.mpr (fun e he => by simpa using hw e he)
  have h2 : m.cache.find? (fun p => p.1 == symbol) = none :=
    List.find?_eq_none.mpr (fun p hp => by simpa using hc p hp)
  simp [Monitor.get_stock_info, h1, h2]

/-- Witness for C3: a Monitor that watches `"VIC"` with an empty cache is
asked about `"VNM"`. -/
theorem c3_unknown_symbol_witness :
    (Monitor.mk [⟨"VIC", none⟩] []).get_stock_info "VNM" =
      .error .UnknownSymbol :=
  c3_unknown_symbol ⟨[⟨"VIC", none⟩], []⟩ "VNM" (by decide) (by decide)
